import Mathlib

/-!
Verification of the job-tracker pipeline (src/track_jobs.py).

The embedding models the core of the program:

* classify_email      : the classifier with its deterministic pre-filters; the
                        remote OpenAI call is abstracted as an oracle function
                        from (subject, content) to the returned label.
* update_csv merge    : the for-loop of update_csv that builds new_entries and
                        grows existing_data, then either returns early (no new
                        entries, nothing written) or writes the set union
                        existing_data.union(new_entries) back to the artifact.
* table load          : the CSV reading loop (header dropped, a row kept when
                        len(row) >= 5, csv_has_data set when any row is kept).
* fetch_recent_emails : the Gmail fetch, whose try/except converts any raised
                        provider error into an empty result list.

Rows of the table are modelled as lists of field strings (the source stores
tuple(row), whose length can exceed five); the Drive artifact content is the
list of its CSV rows. Python sets of rows become Finset Row.
-/

/-- One raw email produced by the fetcher: (date_received, sender, subject, snippet). -/
structure RawEmail where
  date : String
  sender : String
  subject : String
  snippet : String
deriving DecidableEq, Repr

/-- One CSV row, as the list of its fields. The source stores tuple(row) for any
row with at least five fields, so a stored row can be longer than five fields. -/
abbrev Row := List String

/-- The valid_categories list of classify_email. -/
def validCategories : List String :=
  ["Application Submitted", "Interview Received",
   "Rejection Notice", "Follow-up Needed", "Irrelevant"]

/-- Python (not sender or sender.strip() == \x22\x22): true exactly when every
character of the string is whitespace, the empty string included. -/
def isBlank (s : String) : Bool :=
  s.data.all Char.isWhitespace

/-- ASCII lowering of one character, the effect of Python str.lower() on the
characters that occur in the senders and in the github.com marker. -/
def lowerChar (c : Char) : Char :=
  if 'A' ≤ c ∧ c ≤ 'Z' then Char.ofNat (c.toNat + 32) else c

/-- Python str.lower() at the character level. -/
def lowerStr (s : String) : String :=
  ⟨s.data.map lowerChar⟩

/-- Does the needle occur at the head of the haystack. -/
def charsHasPrefix : List Char → List Char → Bool
  | [], _ => true
  | _ :: _, [] => false
  | n :: ns, h :: hs => n = h && charsHasPrefix ns hs

/-- Does the needle occur anywhere in the haystack. -/
def charsContains (needle hay : List Char) : Bool :=
  charsHasPrefix needle hay ||
    match hay with
    | [] => false
    | _ :: hs => charsContains needle hs

/-- Python substring test (needle in hay). -/
def containsSub (needle hay : String) : Bool :=
  charsContains needle.data hay.data

/-- Python content[:100], slicing by characters. -/
def takeChars (n : Nat) (s : String) : String :=
  ⟨s.data.take n⟩

/-- classify_email from src/track_jobs.py. The remote OpenAI chat call is
abstracted as oracle subject content, returning the raw response text; every
other step (the two sender pre-filters, snippet truncation to 100 characters,
and coercion of unexpected labels to Irrelevant) is the code of the source.
Returns (category, sender, subject, snippet-truncated). -/
def classify_email (oracle : String → String → String)
    (content sender subject : String) : String × String × String × String :=
  if isBlank sender then
    ("Irrelevant", sender, subject, takeChars 100 content)
  else if containsSub "github.com" (lowerStr sender) then
    ("Irrelevant", sender, subject, takeChars 100 content)
  else
    let classification := oracle subject content
    if classification ∈ validCategories then
      (classification, sender, subject, takeChars 100 content)
    else
      ("Irrelevant", sender, subject, takeChars 100 content)

/-- The new_entry_key row built in the loop of update_csv:
(date_received, category, classified_sender, classified_subject, classified_snippet). -/
def mkEntry (oracle : String → String → String) (e : RawEmail) : Row :=
  let c := classify_email oracle e.snippet e.sender e.subject
  [e.date, c.1, c.2.1, c.2.2.1, c.2.2.2]

/-- The category assigned to a raw email by classify_email. -/
def entryCategory (oracle : String → String → String) (e : RawEmail) : String :=
  (classify_email oracle e.snippet e.sender e.subject).1

/-- One iteration of the for-loop of update_csv. The state is the pair
(existing_data, new_entries). When csv_has_data is false every entry is
appended and added; otherwise an entry is kept only when its category is not
Irrelevant and the full row is not already in existing_data. -/
def processEmail (oracle : String → String → String) (csv_has_data : Bool)
    (acc : Finset Row × List Row) (e : RawEmail) : Finset Row × List Row :=
  let entry := mkEntry oracle e
  if csv_has_data = false then
    (insert entry acc.1, acc.2 ++ [entry])
  else if entryCategory oracle e ≠ "Irrelevant" ∧ entry ∉ acc.1 then
    (insert entry acc.1, acc.2 ++ [entry])
  else
    acc

/-- The whole for-loop of update_csv: fold processEmail over the fetched emails,
starting from the loaded existing_data and an empty new_entries list. -/
def mergeState (oracle : String → String → String) (csv_has_data : Bool)
    (existing : Finset Row) (emails : List RawEmail) : Finset Row × List Row :=
  emails.foldl (processEmail oracle csv_has_data) (existing, [])

/-- The data rows update_csv writes back to the artifact: none when new_entries
is empty (the function returns before opening or uploading any file), otherwise
the set existing_data.union(new_entries) that the writer loop emits. -/
def update_csv (oracle : String → String → String) (existing : Finset Row)
    (csv_has_data : Bool) (emails : List RawEmail) : Option (Finset Row) :=
  let st := mergeState oracle csv_has_data existing emails
  if st.2 = [] then none
  else some (st.1 ∪ st.2.toFinset)

/-- The merged table regardless of the early return: existing_data united with
new_entries, the reconciliation result of one run. -/
def reconcile (oracle : String → String → String) (existing : Finset Row)
    (csv_has_data : Bool) (emails : List RawEmail) : Finset Row :=
  let st := mergeState oracle csv_has_data existing emails
  st.1 ∪ st.2.toFinset

/-- The data rows of the stored artifact after a run: the written set when a
write happened, the previous contents when update_csv returned early. -/
def finalStored (stored : Finset Row) (written : Option (Finset Row)) : Finset Row :=
  written.getD stored

/-- The identity key named by the spec: (received_at, sender, snippet), read off
a stored row whose columns are Date, Category, Sender, Subject, Snippet. -/
def identityKey (r : Row) : String × String × String :=
  (r.getD 0 "", r.getD 2 "", r.getD 4 "")

/-- One iteration of the CSV reading loop of update_csv: a row reaches
existing_data only when it has at least five fields, and csv_has_data becomes
true at the first such row. -/
def parseStep (acc : Finset Row × Bool) (row : Row) : Finset Row × Bool :=
  if 5 ≤ row.length then (insert row acc.1, true) else acc

/-- Loading the artifact content: the first line is the header (discarded), each
later line goes through parseStep. An empty content yields the empty table. -/
def loadTable (content : List Row) : Finset Row × Bool :=
  match content with
  | [] => (∅, false)
  | _ :: dataRows => dataRows.foldl parseStep (∅, false)

/-- The column_headers row written first by update_csv. -/
def column_headers : Row := ["Date", "Category", "Sender", "Subject", "Snippet"]

/-- Characters that Python str.splitlines treats as line boundaries. -/
def lineBoundary (c : Char) : Bool :=
  c = '\n' || c = '\r' || c = '\x0b' || c = '\x0c' || c = '\x1c' ||
    c = '\x1d' || c = '\x1e' || c = '\x85' || c = '\u2028' || c = '\u2029'

/-- A field whose characters contain no line boundary. -/
def cleanField (f : String) : Bool :=
  f.data.all fun c => !lineBoundary c

/-- A row all of whose fields are free of line boundaries. -/
def cleanRow (r : Row) : Bool :=
  r.all cleanField

/-- QUOTE_MINIMAL of csv.writer for the default dialect: a field is quoted iff
it contains the delimiter, the quote character, or a character of the \x22\r\n\x22
line terminator. -/
def needsQuote (f : String) : Bool :=
  f.data.any fun c => c = ',' || c = '"' || c = '\r' || c = '\n'

/-- Inside a quoted field csv.writer doubles every quote character. -/
def escapeQuotes : List Char → List Char
  | [] => []
  | c :: cs => if c = '"' then '"' :: '"' :: escapeQuotes cs else c :: escapeQuotes cs

/-- The characters csv.writer emits for one field. -/
def fieldChars (f : String) : List Char :=
  if needsQuote f then '"' :: (escapeQuotes f.data ++ ['"']) else f.data

/-- The characters of a row body: fields joined by the comma delimiter. -/
def rowCharsAux : List String → List Char
  | [] => []
  | [f] => fieldChars f
  | f :: g :: fs => fieldChars f ++ ',' :: rowCharsAux (g :: fs)

/-- One row as csv.writer emits it, before the terminator. The writer special
cases a row consisting of a single empty field, which is quoted so that the
line does not read back as an empty record. -/
def rowChars (r : Row) : List Char :=
  if r = [""] then ['"', '"'] else rowCharsAux r

/-- One row with the default \x22\r\n\x22 terminator of csv.writer. -/
def writeRow (r : Row) : List Char :=
  rowChars r ++ ['\r', '\n']

/-- The artifact text produced by the writer loop of update_csv: the header row
followed by the data rows, each serialized by csv.writer. -/
def saveText (rows : List Row) : List Char :=
  ((column_headers :: rows).map writeRow).flatten

/-- Worker of splitlines: the accumulator holds the current line reversed. A
\x22\r\n\x22 pair is one boundary; a trailing boundary opens no empty line. -/
def splitlinesAux : List Char → List Char → List (List Char)
  | [], acc => if acc.isEmpty then [] else [acc.reverse]
  | [c], acc =>
      if lineBoundary c then [acc.reverse]
      else [(c :: acc).reverse]
  | c :: c2 :: cs, acc =>
      if c = '\r' then
        if c2 = '\n' then acc.reverse :: splitlinesAux cs []
        else acc.reverse :: splitlinesAux (c2 :: cs) []
      else if lineBoundary c then acc.reverse :: splitlinesAux (c2 :: cs) []
      else splitlinesAux (c2 :: cs) (c :: acc)

/-- Python str.splitlines on the downloaded artifact text (line 200 of the
source): the physical lines with their terminators stripped. -/
def splitlines (cs : List Char) : List (List Char) :=
  splitlinesAux cs []

/-- Parser states of the csv.reader state machine (default dialect, non strict). -/
inductive CsvState where
  | startField
  | inField
  | inQuoted
  | quoteInQuoted
deriving DecidableEq, Repr

/-- One character step of csv.reader. The machine state is the parser state,
the characters of the current field, and the completed fields of the record. -/
def stepChar (acc : CsvState × List Char × List (List Char)) (c : Char) :
    CsvState × List Char × List (List Char) :=
  match acc with
  | (CsvState.startField, field, fields) =>
      if c = '"' then (CsvState.inQuoted, field, fields)
      else if c = ',' then (CsvState.startField, [], fields ++ [field])
      else (CsvState.inField, field ++ [c], fields)
  | (CsvState.inField, field, fields) =>
      if c = ',' then (CsvState.startField, [], fields ++ [field])
      else (CsvState.inField, field ++ [c], fields)
  | (CsvState.inQuoted, field, fields) =>
      if c = '"' then (CsvState.quoteInQuoted, field, fields)
      else (CsvState.inQuoted, field ++ [c], fields)
  | (CsvState.quoteInQuoted, field, fields) =>
      if c = '"' then (CsvState.inQuoted, field ++ ['"'], fields)
      else if c = ',' then (CsvState.startField, [], fields ++ [field])
      else (CsvState.inField, field ++ [c], fields)

/-- Rebuild a string from its characters. -/
def mkStr (cs : List Char) : String :=
  ⟨cs⟩

/-- csv.reader over the terminator-stripped lines that splitlines produced. A
line ending inside a quoted field continues on the next line, joined with
nothing because the terminator characters were already stripped; any other end
of line closes the record. A blank line yields an empty record. -/
def parseAll : Option (List Char × List (List Char)) → List (List Char) → List Row
  | none, [] => []
  | some (f, fs), [] => [(fs ++ [f]).map mkStr]
  | carry, line :: rest =>
      let s0 : CsvState × List Char × List (List Char) :=
        match carry with
        | none => (CsvState.startField, [], [])
        | some (f, fs) => (CsvState.inQuoted, f, fs)
      match line.foldl stepChar s0 with
      | (CsvState.inQuoted, f, fs) => parseAll (some (f, fs)) rest
      | (CsvState.startField, f, fs) =>
          if fs.isEmpty then [] :: parseAll none rest
          else ((fs ++ [f]).map mkStr) :: parseAll none rest
      | (CsvState.inField, f, fs) => ((fs ++ [f]).map mkStr) :: parseAll none rest
      | (CsvState.quoteInQuoted, f, fs) => ((fs ++ [f]).map mkStr) :: parseAll none rest

/-- The whole load path of update_csv on the artifact text: decode, splitlines,
csv.reader, then the header drop and the len(row) >= 5 loop of loadTable. -/
def load_artifact (content : List Char) : Finset Row × Bool :=
  loadTable (parseAll none (splitlines content))

/-- The parser state reached after reading the characters of one field from the
start of a field. -/
def fieldEndState (f : String) : CsvState :=
  if needsQuote f then CsvState.quoteInQuoted
  else if f.data = [] then CsvState.startField
  else CsvState.inField

/-- fetch_recent_emails with the Gmail interaction abstracted as its outcome:
the try block either produces the extracted email list or raises, and the
except clause turns any raised error into an empty result list. -/
def fetch_recent_emails (outcome : Except String (List RawEmail)) : List RawEmail :=
  match outcome with
  | Except.ok emails => emails
  | Except.error _ => []

/-- What one invocation of main reports, given the fetch outcome. -/
structure RunReport where
  fetched : List RawEmail
  ranUpdate : Bool
  succeeded : Bool
deriving DecidableEq, Repr

/-- main from src/track_jobs.py on its fetch path: fetch, call update_csv only
when the list is nonempty, and finish by printing the success message. Since
fetch_recent_emails never lets an error escape, this path always completes
normally; succeeded records that main reaches its final success print. -/
def main_run (outcome : Except String (List RawEmail)) : RunReport :=
  let emails := fetch_recent_emails outcome
  { fetched := emails, ranUpdate := !emails.isEmpty, succeeded := true }

/-- With csv_has_data false the loop body always appends and inserts the entry. -/
theorem processEmail_false_eq (oracle : String → String → String)
    (acc : Finset Row × List Row) (e : RawEmail) :
    processEmail oracle false acc e =
      (insert (mkEntry oracle e) acc.1, acc.2 ++ [mkEntry oracle e]) := rfl

/-- With csv_has_data true the loop body either skips the entry (category
Irrelevant, or the full row already in existing_data) or accepts it. -/
theorem processEmail_true_cases (oracle : String → String → String)
    (acc : Finset Row × List Row) (e : RawEmail) :
    ((entryCategory oracle e = "Irrelevant" ∨ mkEntry oracle e ∈ acc.1) ∧
        processEmail oracle true acc e = acc) ∨
      (entryCategory oracle e ≠ "Irrelevant" ∧ mkEntry oracle e ∉ acc.1 ∧
        processEmail oracle true acc e =
          (insert (mkEntry oracle e) acc.1, acc.2 ++ [mkEntry oracle e])) := by
  by_cases h : entryCategory oracle e ≠ "Irrelevant" ∧ mkEntry oracle e ∉ acc.1
  · exact Or.inr ⟨h.1, h.2, by simp [processEmail, h]⟩
  · refine Or.inl ⟨?_, by simp [processEmail, h]⟩
    by_cases hc : entryCategory oracle e = "Irrelevant"
    · exact Or.inl hc
    · refine Or.inr ?_
      by_contra hm
      exact h ⟨hc, hm⟩

/-- A candidate whose category is Irrelevant, or whose row is already in
existing_data, leaves the loop state unchanged when csv_has_data is true. -/
theorem processEmail_true_of_skip (oracle : String → String → String)
    (acc : Finset Row × List Row) (e : RawEmail)
    (h : entryCategory oracle e = "Irrelevant" ∨ mkEntry oracle e ∈ acc.1) :
    processEmail oracle true acc e = acc := by
  rcases processEmail_true_cases oracle acc e with ⟨_, heq⟩ | ⟨hcat, hmem, _⟩
  · exact heq
  · rcases h with hc | hm
    · exact absurd hc hcat
    · exact absurd hm hmem

/-- The loop body never removes anything from existing_data. -/
theorem processEmail_fst_mono (oracle : String → String → String) (b : Bool)
    (acc : Finset Row × List Row) (e : RawEmail) :
    acc.1 ⊆ (processEmail oracle b acc e).1 := by
  cases b with
  | false =>
      rw [processEmail_false_eq]
      exact Finset.subset_insert _ _
  | true =>
      rcases processEmail_true_cases oracle acc e with ⟨_, heq⟩ | ⟨_, _, heq⟩
      · rw [heq]
      · rw [heq]
        exact Finset.subset_insert _ _

/-- The whole loop never removes anything from existing_data. -/
theorem foldl_fst_mono (oracle : String → String → String) (b : Bool)
    (emails : List RawEmail) :
    ∀ acc : Finset Row × List Row,
      acc.1 ⊆ (emails.foldl (processEmail oracle b) acc).1 := by
  induction emails with
  | nil => intro acc; exact Finset.Subset.refl _
  | cons e rest ih =>
      intro acc
      rw [List.foldl_cons]
      exact (processEmail_fst_mono oracle b acc e).trans (ih _)

/-- When every candidate is skipped (Irrelevant, or already in the initial set)
the loop is the identity on its state, for csv_has_data true. -/
theorem foldl_true_fixed (oracle : String → String → String) (S : Finset Row)
    (l : List Row) (emails : List RawEmail)
    (h : ∀ e ∈ emails, entryCategory oracle e = "Irrelevant" ∨ mkEntry oracle e ∈ S) :
    emails.foldl (processEmail oracle true) (S, l) = (S, l) := by
  induction emails with
  | nil => rfl
  | cons e rest ih =>
      rw [List.foldl_cons,
        processEmail_true_of_skip oracle (S, l) e (h e (List.mem_cons_self e rest))]
      exact ih fun f hf => h f (List.mem_cons_of_mem e hf)

/-- After the loop, every candidate of the batch is either Irrelevant or has its
row in the final existing_data, for csv_has_data true. -/
theorem entry_mem_foldl_true (oracle : String → String → String)
    (emails : List RawEmail) :
    ∀ (acc : Finset Row × List Row) (e : RawEmail), e ∈ emails →
      entryCategory oracle e = "Irrelevant" ∨
        mkEntry oracle e ∈ (emails.foldl (processEmail oracle true) acc).1 := by
  induction emails with
  | nil => intro acc e he; exact absurd he (List.not_mem_nil e)
  | cons f rest ih =>
      intro acc e he
      rw [List.foldl_cons]
      rcases List.mem_cons.mp he with rfl | hrest
      · rcases processEmail_true_cases oracle acc e with ⟨hskip, heq⟩ | ⟨_, _, heq⟩
        · rcases hskip with hc | hm
          · exact Or.inl hc
          · exact Or.inr (foldl_fst_mono oracle true rest _ (by rw [heq]; exact hm))
        · exact Or.inr (foldl_fst_mono oracle true rest _
            (by rw [heq]; exact Finset.mem_insert_self _ _))
      · exact ih (processEmail oracle true acc f) e hrest

/-- Invariant of the loop for csv_has_data true: the accepted new_entries list
stays duplicate-free and disjoint from any set below the running existing_data. -/
theorem foldl_true_new_inv (oracle : String → String → String) (E : Finset Row)
    (emails : List RawEmail) :
    ∀ acc : Finset Row × List Row,
      acc.2.Nodup → (∀ r ∈ acc.2, r ∈ acc.1) → (∀ r ∈ acc.2, r ∉ E) → E ⊆ acc.1 →
      ((emails.foldl (processEmail oracle true) acc).2.Nodup ∧
        ∀ r ∈ (emails.foldl (processEmail oracle true) acc).2, r ∉ E) := by
  induction emails with
  | nil => intro acc h1 _ h3 _; exact ⟨h1, h3⟩
  | cons e rest ih =>
      intro acc h1 h2 h3 h4
      rw [List.foldl_cons]
      rcases processEmail_true_cases oracle acc e with ⟨_, heq⟩ | ⟨_, hmem, heq⟩
      · rw [heq]; exact ih acc h1 h2 h3 h4
      · rw [heq]
        refine ih _ ?_ ?_ ?_ ?_
        · refine List.Nodup.append h1 (List.nodup_singleton _) ?_
          intro r hr hr'
          rw [List.mem_singleton] at hr'
          subst hr'
          exact hmem (h2 _ hr)
        · intro r hr
          rcases List.mem_append.mp hr with h | h
          · exact Finset.mem_insert_of_mem (h2 r h)
          · rw [List.mem_singleton] at h
            subst h
            exact Finset.mem_insert_self _ _
        · intro r hr
          rcases List.mem_append.mp hr with h | h
          · exact h3 r h
          · rw [List.mem_singleton] at h
            subst h
            intro hrE
            exact hmem (h4 hrE)
        · exact h4.trans (Finset.subset_insert _ _)

/-- The CSV reading loop keeps exactly the rows with at least five fields and
reports whether it kept any. -/
theorem foldl_parseStep_eq (dataRows : List Row) :
    ∀ (S : Finset Row) (b : Bool),
      dataRows.foldl parseStep (S, b) =
        (S ∪ (dataRows.filter (fun r => 5 ≤ r.length)).toFinset,
          b || dataRows.any (fun r => 5 ≤ r.length)) := by
  induction dataRows with
  | nil => intro S b; simp
  | cons r rest ih =>
      intro S b
      rw [List.foldl_cons]
      by_cases h : 5 ≤ r.length
      · rw [show parseStep (S, b) r = (insert r S, true) from by simp [parseStep, h]]
        rw [ih]
        simp [h, Finset.insert_union]
      · rw [show parseStep (S, b) r = (S, b) from by simp [parseStep, h]]
        rw [ih]
        simp [h]

/-- C1, counterexample. With a stored row and a candidate sharing its
(received_at, sender, snippet) triple but carrying a different subject and a
different classification, update_csv writes two distinct rows with the same
identity key: dedup compares the full five-field row, not the triple. -/
theorem C1_counterexample :
    (["d", "Interview Received", "s", "su1", "sn"] : Row) ∈
        finalStored {["d", "Interview Received", "s", "su1", "sn"]}
          (update_csv (fun _ _ => "Rejection Notice")
            {["d", "Interview Received", "s", "su1", "sn"]} true
            [⟨"d", "s", "su2", "sn"⟩]) ∧
      (["d", "Rejection Notice", "s", "su2", "sn"] : Row) ∈
        finalStored {["d", "Interview Received", "s", "su1", "sn"]}
          (update_csv (fun _ _ => "Rejection Notice")
            {["d", "Interview Received", "s", "su1", "sn"]} true
            [⟨"d", "s", "su2", "sn"⟩]) ∧
      (["d", "Interview Received", "s", "su1", "sn"] : Row) ≠
        ["d", "Rejection Notice", "s", "su2", "sn"] ∧
      identityKey ["d", "Interview Received", "s", "su1", "sn"] =
        identityKey ["d", "Rejection Notice", "s", "su2", "sn"] := by
  decide

/-- C1, amended. The rows written back never contain a fully identical record
twice: the written list enumerates a set, and with had_data_rows true the
new_entries list is duplicate-free and disjoint from the loaded table. Rows
that agree only on (received_at, sender, snippet) are not deduplicated. -/
theorem C1_amended (oracle : String → String → String) (existing : Finset Row)
    (emails : List RawEmail) :
    (finalStored existing (update_csv oracle existing true emails)).toList.Nodup ∧
      (mergeState oracle true existing emails).2.Nodup ∧
      ∀ r ∈ (mergeState oracle true existing emails).2, r ∉ existing := by
  have hinv := foldl_true_new_inv oracle existing emails (existing, [])
    List.nodup_nil (by simp) (by simp) (Finset.Subset.refl _)
  exact ⟨Finset.nodup_toList _, hinv.1, hinv.2⟩

/-- C2, counterexample. In the end-to-end scenario of the spec the candidate
with an identical (received_at, sender, snippet) triple but a new subject and a
Rejection Notice classification is accepted, so the written table holds two
rows for that identity instead of exactly one. -/
theorem C2_counterexample :
    ((finalStored
          {["Mon, 1 Jan 2024 10:00:00", "Interview Received", "hr@acme.com",
            "Interview", "We would like to schedule an interview"]}
          (update_csv (fun _ _ => "Rejection Notice")
            {["Mon, 1 Jan 2024 10:00:00", "Interview Received", "hr@acme.com",
              "Interview", "We would like to schedule an interview"]} true
            [⟨"Mon, 1 Jan 2024 10:00:00", "hr@acme.com", "Interview update",
              "We would like to schedule an interview"⟩])).filter
        (fun r => identityKey r =
          ("Mon, 1 Jan 2024 10:00:00", "hr@acme.com",
            "We would like to schedule an interview"))).card = 2 := by
  decide

/-- C2, amended. In that scenario the new candidate differs from the stored row
as a full five-field record, so it is not treated as already seen: the written
table is exactly the stored row together with the newly classified record. -/
theorem C2_amended :
    finalStored
        {["Mon, 1 Jan 2024 10:00:00", "Interview Received", "hr@acme.com",
          "Interview", "We would like to schedule an interview"]}
        (update_csv (fun _ _ => "Rejection Notice")
          {["Mon, 1 Jan 2024 10:00:00", "Interview Received", "hr@acme.com",
            "Interview", "We would like to schedule an interview"]} true
          [⟨"Mon, 1 Jan 2024 10:00:00", "hr@acme.com", "Interview update",
            "We would like to schedule an interview"⟩]) =
      {["Mon, 1 Jan 2024 10:00:00", "Interview Received", "hr@acme.com",
        "Interview", "We would like to schedule an interview"],
       ["Mon, 1 Jan 2024 10:00:00", "Rejection Notice", "hr@acme.com",
        "Interview update", "We would like to schedule an interview"]} := by
  decide

/-- C3. Every record parsed from the existing table is still present after the
run: the merge only ever adds rows, and an early return leaves the stored
artifact as it was. -/
theorem C3_merge_preserves_loaded (oracle : String → String → String)
    (existing : Finset Row) (csv_has_data : Bool) (emails : List RawEmail) :
    existing ⊆ finalStored existing (update_csv oracle existing csv_has_data emails) := by
  by_cases h : (mergeState oracle csv_has_data existing emails).2 = []
  · simp [update_csv, finalStored, h]
  · have hw : update_csv oracle existing csv_has_data emails =
        some ((mergeState oracle csv_has_data existing emails).1 ∪
          (mergeState oracle csv_has_data existing emails).2.toFinset) := by
      simp [update_csv, h]
    rw [hw]
    refine Finset.Subset.trans ?_ Finset.subset_union_left
    exact foldl_fst_mono oracle csv_has_data emails (existing, [])

/-- C4. With a deterministic classifier and had_data_rows true, merging the same
candidate batch a second time into the table produced by a first merge changes
nothing: every candidate is then Irrelevant or already present. -/
theorem C4_reconcile_idempotent (oracle : String → String → String)
    (T : Finset Row) (C : List RawEmail) :
    reconcile oracle (reconcile oracle T true C) true C = reconcile oracle T true C := by
  set R1 := reconcile oracle T true C with hR1
  have hmem : ∀ e ∈ C, entryCategory oracle e = "Irrelevant" ∨ mkEntry oracle e ∈ R1 := by
    intro e he
    rcases entry_mem_foldl_true oracle C (T, []) e he with h | h
    · exact Or.inl h
    · refine Or.inr ?_
      rw [hR1]
      exact Finset.mem_union_left _ h
  have hfix := foldl_true_fixed oracle R1 [] C hmem
  show reconcile oracle R1 true C = R1
  simp only [reconcile, mergeState]
  rw [hfix]
  simp

/-- C5. With csv_has_data false, a single candidate classified Irrelevant is
still accepted: the bootstrap branch appends every entry unconditionally, so
the written table contains its record. -/
theorem C5_bootstrap_accepts (oracle : String → String → String)
    (existing : Finset Row) (c : RawEmail)
    (h : (classify_email oracle c.snippet c.sender c.subject).1 = "Irrelevant") :
    ∃ S, update_csv oracle existing false [c] = some S ∧ mkEntry oracle c ∈ S := by
  have hst : mergeState oracle false existing [c] =
      (insert (mkEntry oracle c) existing, [mkEntry oracle c]) := rfl
  refine ⟨insert (mkEntry oracle c) existing ∪ [mkEntry oracle c].toFinset, ?_, ?_⟩
  · simp [update_csv, hst]
  · exact Finset.mem_union_left _ (Finset.mem_insert_self _ _)

/-- C5, witness: a concrete candidate with an empty sender is classified
Irrelevant by the pre-filter and is still written under the bootstrap rule. -/
theorem C5_witness :
    (classify_email (fun _ _ => "Interview Received")
        (RawEmail.mk "d" "" "su" "sn").snippet (RawEmail.mk "d" "" "su" "sn").sender
        (RawEmail.mk "d" "" "su" "sn").subject).1 = "Irrelevant" ∧
      ∃ S, update_csv (fun _ _ => "Interview Received") ∅ false
            [RawEmail.mk "d" "" "su" "sn"] = some S ∧
          mkEntry (fun _ _ => "Interview Received") (RawEmail.mk "d" "" "su" "sn") ∈ S :=
  ⟨by decide, C5_bootstrap_accepts (fun _ _ => "Interview Received") ∅
    (RawEmail.mk "d" "" "su" "sn") (by decide)⟩

/-- C6, counterexample. With csv_has_data false, two candidates sharing the
(received_at, sender, snippet) triple but with different subjects are both
written: the within-batch collision is not suppressed at the identity triple. -/
theorem C6_counterexample :
    ((finalStored ∅ (update_csv (fun _ _ => "Irrelevant") ∅ false
          [⟨"d", "s", "su1", "sn"⟩, ⟨"d", "s", "su2", "sn"⟩])).filter
        (fun r => identityKey r = ("d", "s", "sn"))).card = 2 := by
  decide

/-- C6, amended. Under the bootstrap rule a within-batch collision is suppressed
only for fully identical records: a duplicated candidate is appended to
new_entries twice, yet the written output, being a set, holds its row once. -/
theorem C6_amended (oracle : String → String → String) (existing : Finset Row)
    (c : RawEmail) :
    (mergeState oracle false existing [c, c]).2 =
        [mkEntry oracle c, mkEntry oracle c] ∧
      (finalStored existing (update_csv oracle existing false [c, c])).val.count
        (mkEntry oracle c) = 1 := by
  have hst : mergeState oracle false existing [c, c] =
      (insert (mkEntry oracle c) (insert (mkEntry oracle c) existing),
        [mkEntry oracle c, mkEntry oracle c]) := rfl
  constructor
  · rw [hst]
  · have hW : finalStored existing (update_csv oracle existing false [c, c]) =
        insert (mkEntry oracle c) (insert (mkEntry oracle c) existing) ∪
          [mkEntry oracle c, mkEntry oracle c].toFinset := rfl
    rw [hW]
    have hmem : mkEntry oracle c ∈
        (insert (mkEntry oracle c) (insert (mkEntry oracle c) existing) ∪
          [mkEntry oracle c, mkEntry oracle c].toFinset).val := by
      rw [Finset.mem_val]
      exact Finset.mem_union_left _ (Finset.mem_insert_self _ _)
    exact Multiset.count_eq_one_of_mem (Finset.nodup _) hmem

/-- C7, counterexample. A data row with six fields is parsed into the table even
though it does not have the expected five-column shape: the guard is
len(row) >= 5, not an exact column count. -/
theorem C7_counterexample :
    (["a", "b", "c", "d", "e", "f"] : Row) ∈
        (loadTable [column_headers, ["a", "b", "c", "d", "e", "f"]]).1 ∧
      (["a", "b", "c", "d", "e", "f"] : Row).length ≠ 5 := by
  decide

/-- C7, amended. After discarding the header, exactly the rows with at least
five fields are parsed (kept whole, extra fields included); rows with fewer
fields are silently skipped, and csv_has_data is true iff some row had at
least five fields. -/
theorem C7_amended (hd : Row) (dataRows : List Row) :
    (loadTable (hd :: dataRows)).1 =
        (dataRows.filter (fun r => 5 ≤ r.length)).toFinset ∧
      (loadTable (hd :: dataRows)).2 = dataRows.any (fun r => 5 ≤ r.length) := by
  have h := foldl_parseStep_eq dataRows ∅ false
  have hload : loadTable (hd :: dataRows) = dataRows.foldl parseStep (∅, false) := rfl
  rw [hload, h]
  simp

/-- C8, counterexample. A provider error during the fetch does not propagate:
fetch_recent_emails swallows it into an empty list, and main then finishes as
a successful no-email run instead of aborting with a failure report. -/
theorem C8_counterexample :
    ¬ (main_run (Except.error "network error")).succeeded = false ∧
      fetch_recent_emails (Except.error "network error") = [] ∧
      main_run (Except.error "network error") =
        { fetched := [], ranUpdate := false, succeeded := true } := by
  decide

/-- C8, amended. For every provider error, the except branch of
fetch_recent_emails converts it into an empty result, and main completes as a
successful run that never reaches update_csv. -/
theorem C8_amended (e : String) :
    fetch_recent_emails (Except.error e) = [] ∧
      main_run (Except.error e) =
        { fetched := [], ranUpdate := false, succeeded := true } :=
  ⟨rfl, rfl⟩

/-- C10. With had_data_rows true, when every candidate is Irrelevant or its row
is already in the loaded table, new_entries stays empty, update_csv returns
before any file write or upload, and the stored artifact is unchanged. -/
theorem C10_no_accept_no_write (oracle : String → String → String)
    (existing : Finset Row) (emails : List RawEmail)
    (h : ∀ e ∈ emails, entryCategory oracle e = "Irrelevant" ∨
      mkEntry oracle e ∈ existing) :
    update_csv oracle existing true emails = none ∧
      finalStored existing (update_csv oracle existing true emails) = existing := by
  have hfix : mergeState oracle true existing emails = (existing, []) :=
    foldl_true_fixed oracle existing [] emails h
  constructor
  · simp [update_csv, hfix]
  · simp [update_csv, finalStored, hfix]

/-- C10, witness: a concrete batch whose only candidate is classified
Irrelevant leaves the stored table untouched with no write. -/
theorem C10_witness :
    (∀ e ∈ [RawEmail.mk "d" "s" "su" "sn"],
        entryCategory (fun _ _ => "Irrelevant") e = "Irrelevant" ∨
          mkEntry (fun _ _ => "Irrelevant") e ∈ (∅ : Finset Row)) ∧
      update_csv (fun _ _ => "Irrelevant") ∅ true [RawEmail.mk "d" "s" "su" "sn"] = none ∧
      finalStored ∅
          (update_csv (fun _ _ => "Irrelevant") ∅ true [RawEmail.mk "d" "s" "su" "sn"]) =
        ∅ :=
  ⟨by decide, C10_no_accept_no_write (fun _ _ => "Irrelevant") ∅
    [RawEmail.mk "d" "s" "su" "sn"] (by decide)⟩

/-- Rebuilding a string from the characters of a string gives it back. -/
theorem mkStr_data (s : String) : mkStr s.data = s := rfl

/-- A character that is not a line boundary is accumulated into the current
line by splitlines. -/
theorem splitlinesAux_nb (c : Char) (cs acc : List Char) (h : lineBoundary c = false) :
    splitlinesAux (c :: cs) acc = splitlinesAux cs (c :: acc) := by
  have hr : ¬c = '\r' := by
    intro he
    rw [he] at h
    exact absurd h (by decide)
  cases cs with
  | nil => simp [splitlinesAux, h]
  | cons c2 cs2 => simp [splitlinesAux, h, hr]

/-- A carriage return and line feed pair closes the current line. -/
theorem splitlinesAux_crlf (cs acc : List Char) :
    splitlinesAux ('\r' :: '\n' :: cs) acc = acc.reverse :: splitlinesAux cs [] := rfl

/-- splitlines cuts exactly at the terminator after a boundary-free body. -/
theorem splitlinesAux_clean (body rest : List Char)
    (h : ∀ c ∈ body, lineBoundary c = false) :
    ∀ acc : List Char,
      splitlinesAux (body ++ '\r' :: '\n' :: rest) acc =
        (acc.reverse ++ body) :: splitlinesAux rest [] := by
  induction body with
  | nil =>
      intro acc
      rw [List.nil_append, splitlinesAux_crlf]
      simp
  | cons c body ih =>
      intro acc
      have hc : lineBoundary c = false := h c (List.mem_cons_self c body)
      rw [List.cons_append, splitlinesAux_nb c _ acc hc,
        ih (fun d hd => h d (List.mem_cons_of_mem c hd)) (c :: acc)]
      simp

/-- Every character of an escaped field body is a field character or a quote. -/
theorem escapeQuotes_mem (cs : List Char) :
    ∀ c ∈ escapeQuotes cs, c ∈ cs ∨ c = '"' := by
  induction cs with
  | nil => intro c hc; simp [escapeQuotes] at hc
  | cons d cs ih =>
      intro c hc
      by_cases hd : d = '"'
      · subst hd
        rw [show escapeQuotes ('"' :: cs) = '"' :: '"' :: escapeQuotes cs from by
          simp [escapeQuotes]] at hc
        rcases List.mem_cons.mp hc with rfl | hc2
        · exact Or.inr rfl
        · rcases List.mem_cons.mp hc2 with rfl | hc3
          · exact Or.inr rfl
          · rcases ih c hc3 with hm | hm
            · exact Or.inl (List.mem_cons_of_mem _ hm)
            · exact Or.inr hm
      · rw [show escapeQuotes (d :: cs) = d :: escapeQuotes cs from by
          simp [escapeQuotes, hd]] at hc
        rcases List.mem_cons.mp hc with rfl | hc2
        · exact Or.inl (List.mem_cons_self _ _)
        · rcases ih c hc2 with hm | hm
          · exact Or.inl (List.mem_cons_of_mem _ hm)
          · exact Or.inr hm

/-- The serialized form of a boundary-free field is boundary-free: quoting adds
only quote characters, which are not line boundaries. -/
theorem fieldChars_clean (f : String) (h : cleanField f = true) :
    ∀ c ∈ fieldChars f, lineBoundary c = false := by
  intro c hc
  have hmem : ∀ d ∈ f.data, lineBoundary d = false := by
    intro d hd
    have hx := List.all_eq_true.mp h d hd
    simpa using hx
  by_cases hq : needsQuote f = true
  · rw [show fieldChars f = '"' :: (escapeQuotes f.data ++ ['"']) from by
      simp [fieldChars, hq]] at hc
    rcases List.mem_cons.mp hc with rfl | hc2
    · decide
    · rcases List.mem_append.mp hc2 with hc3 | hc3
      · rcases escapeQuotes_mem f.data c hc3 with hm | rfl
        · exact hmem c hm
        · decide
      · rw [List.mem_singleton] at hc3
        subst hc3
        decide
  · rw [Bool.not_eq_true] at hq
    rw [show fieldChars f = f.data from by simp [fieldChars, hq]] at hc
    exact hmem c hc

/-- The serialized body of a row of boundary-free fields is boundary-free. -/
theorem rowCharsAux_clean (r : List String) (h : ∀ f ∈ r, cleanField f = true) :
    ∀ c ∈ rowCharsAux r, lineBoundary c = false := by
  induction r with
  | nil => intro c hc; simp [rowCharsAux] at hc
  | cons f r ih =>
      intro c hc
      cases r with
      | nil =>
          rw [show rowCharsAux [f] = fieldChars f from rfl] at hc
          exact fieldChars_clean f (h f (List.mem_cons_self f _)) c hc
      | cons g r2 =>
          rw [show rowCharsAux (f :: g :: r2) =
            fieldChars f ++ ',' :: rowCharsAux (g :: r2) from rfl] at hc
          rcases List.mem_append.mp hc with hc2 | hc2
          · exact fieldChars_clean f (h f (List.mem_cons_self f _)) c hc2
          · rcases List.mem_cons.mp hc2 with rfl | hc3
            · decide
            · exact ih (fun x hx => h x (List.mem_cons_of_mem f hx)) c hc3

/-- The full serialized row body is boundary-free for a clean row. -/
theorem rowChars_clean (r : Row) (h : cleanRow r = true) :
    ∀ c ∈ rowChars r, lineBoundary c = false := by
  intro c hc
  by_cases he : r = [""]
  · rw [show rowChars r = ['"', '"'] from by simp [rowChars, he]] at hc
    rcases List.mem_cons.mp hc with rfl | hc2
    · decide
    · rw [List.mem_singleton] at hc2
      subst hc2
      decide
  · rw [show rowChars r = rowCharsAux r from by simp [rowChars, he]] at hc
    exact rowCharsAux_clean r (fun f hf => List.all_eq_true.mp h f hf) c hc

/-- splitlines recovers exactly the serialized row bodies of clean rows. -/
theorem splitlines_writeRows (lines : List Row) (h : ∀ r ∈ lines, cleanRow r = true) :
    splitlines ((lines.map writeRow).flatten) = lines.map rowChars := by
  induction lines with
  | nil => rfl
  | cons r rest ih =>
      have hbody : ∀ c ∈ rowChars r, lineBoundary c = false :=
        rowChars_clean r (h r (List.mem_cons_self r rest))
      have hflat : ((r :: rest).map writeRow).flatten =
          rowChars r ++ '\r' :: '\n' :: (rest.map writeRow).flatten := by
        simp [writeRow, List.append_assoc]
      rw [hflat, show splitlines (rowChars r ++ '\r' :: '\n' :: (rest.map writeRow).flatten) =
          splitlinesAux (rowChars r ++ '\r' :: '\n' :: (rest.map writeRow).flatten) [] from rfl,
        splitlinesAux_clean (rowChars r) _ hbody [],
        show splitlinesAux ((rest.map writeRow).flatten) [] =
          splitlines ((rest.map writeRow).flatten) from rfl,
        ih (fun x hx => h x (List.mem_cons_of_mem r hx))]
      simp

/-- The field characters of a quote-free field that appears unquoted are never
the delimiter or the quote character. -/
theorem needsQuote_false_mem (f : String) (hq : needsQuote f = false) :
    ∀ c ∈ f.data, ¬c = ',' ∧ ¬c = '"' := by
  intro c hc
  constructor
  · intro he
    have ht : needsQuote f = true :=
      List.any_eq_true.mpr ⟨c, hc, by rw [he]; decide⟩
    rw [hq] at ht
    exact absurd ht (by decide)
  · intro he
    have ht : needsQuote f = true :=
      List.any_eq_true.mpr ⟨c, hc, by rw [he]; decide⟩
    rw [hq] at ht
    exact absurd ht (by decide)

/-- Inside an unquoted field the reader accumulates every non-delimiter
character. -/
theorem parse_inField_chars (cs : List Char) (h : ∀ c ∈ cs, ¬c = ',') :
    ∀ (f : List Char) (fs : List (List Char)),
      cs.foldl stepChar (CsvState.inField, f, fs) = (CsvState.inField, f ++ cs, fs) := by
  induction cs with
  | nil => intro f fs; simp
  | cons c cs ih =>
      intro f fs
      have hc : ¬c = ',' := h c (List.mem_cons_self c cs)
      rw [List.foldl_cons]
      have hstep : stepChar (CsvState.inField, f, fs) c = (CsvState.inField, f ++ [c], fs) := by
        simp only [stepChar]
        rw [if_neg hc]
      rw [hstep, ih (fun d hd => h d (List.mem_cons_of_mem c hd)) (f ++ [c]) fs]
      simp

/-- The reader consumes an unquoted field from the start of a field and ends
with the field characters accumulated. -/
theorem parse_unquoted_field (f : String) (hq : needsQuote f = false) :
    ∀ fs : List (List Char),
      f.data.foldl stepChar (CsvState.startField, [], fs) = (fieldEndState f, f.data, fs) := by
  intro fs
  cases hd : f.data with
  | nil => simp [fieldEndState, hq, hd]
  | cons c cs =>
      have hcc := needsQuote_false_mem f hq c (by rw [hd]; exact List.mem_cons_self c cs)
      rw [List.foldl_cons]
      have hstep : stepChar (CsvState.startField, [], fs) c = (CsvState.inField, [c], fs) := by
        simp only [stepChar]
        rw [if_neg hcc.2, if_neg hcc.1]
        simp
      rw [hstep, parse_inField_chars cs
        (fun d hd2 => (needsQuote_false_mem f hq d (by rw [hd]; exact List.mem_cons_of_mem c hd2)).1)
        [c] fs]
      simp [fieldEndState, hq, hd]

/-- Inside a quoted field the reader undoes the quote doubling of the writer. -/
theorem parse_escaped (cs : List Char) :
    ∀ (f : List Char) (fs : List (List Char)),
      (escapeQuotes cs).foldl stepChar (CsvState.inQuoted, f, fs) =
        (CsvState.inQuoted, f ++ cs, fs) := by
  induction cs with
  | nil => intro f fs; simp [escapeQuotes]
  | cons c cs ih =>
      intro f fs
      by_cases hc : c = '"'
      · subst hc
        rw [show escapeQuotes ('"' :: cs) = '"' :: '"' :: escapeQuotes cs from by
          simp [escapeQuotes], List.foldl_cons, List.foldl_cons,
          show stepChar (CsvState.inQuoted, f, fs) '"' = (CsvState.quoteInQuoted, f, fs) from rfl,
          show stepChar (CsvState.quoteInQuoted, f, fs) '"' =
            (CsvState.inQuoted, f ++ ['"'], fs) from rfl,
          ih (f ++ ['"']) fs]
        simp
      · rw [show escapeQuotes (c :: cs) = c :: escapeQuotes cs from by
          simp [escapeQuotes, hc], List.foldl_cons]
        have hstep : stepChar (CsvState.inQuoted, f, fs) c = (CsvState.inQuoted, f ++ [c], fs) := by
          simp only [stepChar]
          rw [if_neg hc]
        rw [hstep, ih (f ++ [c]) fs]
        simp

/-- The reader consumes a quoted field from the start of a field and ends just
after the closing quote with the original field characters. -/
theorem parse_quoted_field (f : String) (hq : needsQuote f = true) :
    ∀ fs : List (List Char),
      (fieldChars f).foldl stepChar (CsvState.startField, [], fs) =
        (fieldEndState f, f.data, fs) := by
  intro fs
  rw [show fieldChars f = '"' :: (escapeQuotes f.data ++ ['"']) from by simp [fieldChars, hq],
    List.foldl_cons,
    show stepChar (CsvState.startField, [], fs) '"' = (CsvState.inQuoted, [], fs) from rfl,
    List.foldl_append, parse_escaped f.data [] fs]
  simp [fieldEndState, hq,
    show stepChar (CsvState.inQuoted, f.data, fs) '"' = (CsvState.quoteInQuoted, f.data, fs) from rfl]

/-- The reader consumes any serialized field and ends in the state recorded by
fieldEndState with the field characters recovered. -/
theorem parse_fieldChars (f : String) :
    ∀ fs : List (List Char),
      (fieldChars f).foldl stepChar (CsvState.startField, [], fs) =
        (fieldEndState f, f.data, fs) := by
  intro fs
  by_cases hq : needsQuote f = true
  · exact parse_quoted_field f hq fs
  · rw [Bool.not_eq_true] at hq
    rw [show fieldChars f = f.data from by simp [fieldChars, hq]]
    exact parse_unquoted_field f hq fs

/-- After a complete field the reader is never inside a quoted field. -/
theorem fieldEndState_ne_inQuoted (f : String) : fieldEndState f ≠ CsvState.inQuoted := by
  unfold fieldEndState
  split
  · simp
  · split <;> simp

/-- A delimiter after a complete field closes that field. -/
theorem stepChar_comma_fieldEnd (f : String) (fs : List (List Char)) :
    stepChar (fieldEndState f, f.data, fs) ',' = (CsvState.startField, [], fs ++ [f.data]) := by
  unfold fieldEndState
  split
  · rfl
  · split
    · rename_i hd
      rw [hd]
      rfl
    · rfl

/-- The reader recovers every field of a serialized row body: the final state
is never inside quotes, the completed fields plus the current field are the
original fields, and exactly one field per delimiter was completed. -/
theorem parse_rowCharsAux (g : String) (r : List String) :
    ∀ fs : List (List Char), ∃ st f' fs',
      (rowCharsAux (g :: r)).foldl stepChar (CsvState.startField, [], fs) = (st, f', fs') ∧
        (fs' ++ [f']).map mkStr = fs.map mkStr ++ g :: r ∧
        st ≠ CsvState.inQuoted ∧
        fs'.length = fs.length + r.length := by
  induction r generalizing g with
  | nil =>
      intro fs
      refine ⟨fieldEndState g, g.data, fs, ?_, ?_, fieldEndState_ne_inQuoted g, by simp⟩
      · rw [show rowCharsAux [g] = fieldChars g from rfl, parse_fieldChars g fs]
      · simp [mkStr_data]
  | cons h2 r ih =>
      intro fs
      obtain ⟨st, f', fs', h1, hmap, hne, hlen⟩ := ih h2 (fs ++ [g.data])
      refine ⟨st, f', fs', ?_, ?_, hne, ?_⟩
      · rw [show rowCharsAux (g :: h2 :: r) =
          fieldChars g ++ ',' :: rowCharsAux (h2 :: r) from rfl,
          List.foldl_append, parse_fieldChars g fs, List.foldl_cons,
          stepChar_comma_fieldEnd g fs]
        exact h1
      · rw [hmap]
        simp [mkStr_data]
      · rw [hlen]
        simp
        omega

/-- A line whose parse completes a record with at least one closed field is
emitted by the reader as that record. -/
theorem parseAll_cons_line (line : List Char) (rest : List (List Char))
    (st : CsvState) (f : List Char) (fs : List (List Char))
    (hp : line.foldl stepChar (CsvState.startField, [], []) = (st, f, fs))
    (h1 : st ≠ CsvState.inQuoted) (h2 : fs ≠ []) :
    parseAll none (line :: rest) = ((fs ++ [f]).map mkStr) :: parseAll none rest := by
  cases st with
  | inQuoted => exact absurd rfl h1
  | startField =>
      cases fs with
      | nil => exact absurd rfl h2
      | cons a l => simp [parseAll, hp]
  | inField => simp [parseAll, hp]
  | quoteInQuoted => simp [parseAll, hp]

/-- The reader maps each serialized row body of at least two fields back to
its row. -/
theorem parseAll_rowChars (lines : List Row) (h : ∀ r ∈ lines, 2 ≤ r.length) :
    parseAll none (lines.map rowChars) = lines := by
  induction lines with
  | nil => rfl
  | cons r rest ih =>
      have hr2 : 2 ≤ r.length := h r (List.mem_cons_self r rest)
      obtain ⟨g, r1, rfl⟩ : ∃ g r1, r = g :: r1 := by
        cases r with
        | nil => simp at hr2
        | cons g r1 => exact ⟨g, r1, rfl⟩
      obtain ⟨h2, r2, rfl⟩ : ∃ h2 r2, r1 = h2 :: r2 := by
        cases r1 with
        | nil => simp at hr2
        | cons h2 r2 => exact ⟨h2, r2, rfl⟩
      have hrc : rowChars (g :: h2 :: r2) = rowCharsAux (g :: h2 :: r2) := by
        simp [rowChars]
      obtain ⟨st, f', fs', h1, hmap, hne, hlen⟩ := parse_rowCharsAux g (h2 :: r2) []
      have hfs : fs' ≠ [] := by
        intro hnil
        rw [hnil] at hlen
        simp at hlen
      rw [List.map_cons, hrc,
        parseAll_cons_line (rowCharsAux (g :: h2 :: r2)) (rest.map rowChars) st f' fs' h1 hne hfs,
        hmap]
      simp [ih (fun x hx => h x (List.mem_cons_of_mem _ hx))]

/-- C9, counterexample. Saving one record whose snippet contains a newline and
loading the artifact back does not return the record: the writer quotes the
field, but the load path splits the text into physical lines before the csv
parse, so the newline inside the quotes is deleted and the snippet comes back
corrupted. -/
theorem C9_counterexample :
    (load_artifact (saveText [["d", "c", "s", "su", "a\nb"]])).1 =
        {["d", "c", "s", "su", "ab"]} ∧
      (load_artifact (saveText [["d", "c", "s", "su", "a\nb"]])).1 ≠
        ([["d", "c", "s", "su", "a\nb"]] : List Row).toFinset := by
  decide

/-- C9, amended. For every set of records whose fields contain no line
boundary characters (and with the five fields every Record has), saving the
table and loading it back yields the same set of records, independent of the
order the writer emitted the rows. -/
theorem C9_roundtrip_clean (rows : List Row)
    (h5 : ∀ r ∈ rows, 5 ≤ r.length)
    (hclean : ∀ r ∈ rows, cleanRow r = true) :
    (load_artifact (saveText rows)).1 = rows.toFinset := by
  have hclean2 : ∀ r ∈ column_headers :: rows, cleanRow r = true := by
    intro r hr
    rcases List.mem_cons.mp hr with rfl | hr
    · decide
    · exact hclean r hr
  have hlen2 : ∀ r ∈ column_headers :: rows, 2 ≤ r.length := by
    intro r hr
    rcases List.mem_cons.mp hr with rfl | hr
    · decide
    · exact le_trans (by decide : (2 : Nat) ≤ 5) (h5 r hr)
  have hsplit : splitlines (saveText rows) = (column_headers :: rows).map rowChars :=
    splitlines_writeRows (column_headers :: rows) hclean2
  have hparse : parseAll none (splitlines (saveText rows)) = column_headers :: rows := by
    rw [hsplit]
    exact parseAll_rowChars (column_headers :: rows) hlen2
  have hf : rows.filter (fun r => 5 ≤ r.length) = rows :=
    List.filter_eq_self.mpr fun r hr => by simpa using h5 r hr
  rw [show load_artifact (saveText rows) =
      loadTable (parseAll none (splitlines (saveText rows))) from rfl, hparse,
    show loadTable (column_headers :: rows) = rows.foldl parseStep (∅, false) from rfl,
    foldl_parseStep_eq rows ∅ false, hf]
  simp

/-- C9, witness: a concrete boundary-free five-field record survives the
save and load round trip. -/
theorem C9_witness :
    ((∀ r ∈ ([["a", "b", "c", "d", "e"]] : List Row), 5 ≤ r.length) ∧
        ∀ r ∈ ([["a", "b", "c", "d", "e"]] : List Row), cleanRow r = true) ∧
      (load_artifact (saveText [["a", "b", "c", "d", "e"]])).1 =
        ([["a", "b", "c", "d", "e"]] : List Row).toFinset :=
  ⟨⟨by decide, by decide⟩,
    C9_roundtrip_clean [["a", "b", "c", "d", "e"]] (by decide) (by decide)⟩
